import Mathlib

/-!
Verification development for the `0x02-redis_basic/exercise.py` module.

The module wraps an external Redis client: a `Cache` class storing values
under random keys, two instrumentation decorators (`count_calls`,
`call_history`) and a `replay` reporting function.  We embed the module
shallowly: the external Redis database is an association list from keys to
values, every operation is a state-passing function that also returns the
list of Redis commands it issued, and Python exceptions are `Except`.

Modelling conventions, applied throughout:
* Byte strings (Python `bytes`) are modelled by their textual content, so
  the UTF-8 encode of `str.encode` and decode of `bytes.decode` are the
  identity.  The module only ever decodes byte strings it previously
  encoded, so no claim exercises invalid UTF-8.
* The fresh random key `str(uuid.uuid4())` of `Cache.store` is an input
  parameter of the embedded `Cache.store` (an oracle for the generator).
* Printing is modelled by returning the list of printed lines.
-/

/-- Python byte strings, modelled by their textual content. -/
abbrev ByteStr := String

/-! ### Decimal numerals

Models the textual integer encoding shared by Python `str(n)` / `int(s)`
and by Redis `INCR` (which stores counters as decimal strings). -/

/-- The decimal digit character for `d < 10` (code point 48 is the digit zero). -/
def decChar (d : Nat) : Char := Char.ofNat (48 + d)

/-- The value of a decimal digit character, if it is one. -/
def decVal? (c : Char) : Option Nat :=
  if 48 ≤ c.toNat ∧ c.toNat ≤ 57 then some (c.toNat - 48) else none

/-- Parse a run of decimal digits, most significant first, onto accumulator `acc`. -/
def parseDigitsAcc (acc : Nat) : List Char → Option Nat
  | [] => some acc
  | c :: cs =>
    match decVal? c with
    | some d => parseDigitsAcc (acc * 10 + d) cs
    | none => none

/-- Parse a nonempty run of decimal digits (Python `int` rejects the empty string). -/
def parseNat (l : List Char) : Option Nat :=
  if l.isEmpty then none else parseDigitsAcc 0 l

/-- Decimal digits of `n`, most significant first; `fuel` bounds the recursion
and any `fuel > n` is enough. -/
def natDigitsAux : Nat → Nat → List Char
  | 0, _ => []
  | fuel + 1, n =>
    if n < 10 then [decChar n]
    else natDigitsAux fuel (n / 10) ++ [decChar (n % 10)]

/-- Decimal digits of `n`, most significant first. -/
def natDigits (n : Nat) : List Char := natDigitsAux (n + 1) n

/-- Decimal numeral of a natural number. -/
def natToStr (n : Nat) : String := String.mk (natDigits n)

/-- Decimal numeral of an integer: model of Python `str(n)` on `int`. -/
def intToStr (n : Int) : String :=
  if n < 0 then "-" ++ natToStr n.natAbs else natToStr n.natAbs

/-- Minus sign character (code point 45). -/
def minusChar : Char := Char.ofNat 45

/-- Parse an optionally negated decimal numeral: model of Python `int(s)`
(and of the integer parse Redis `INCR` performs) on canonically formatted
input. -/
def parseInt (b : ByteStr) : Option Int :=
  match b.data with
  | [] => none
  | c :: cs =>
    if c = minusChar then
      match parseNat cs with
      | some m => some (-(m : Int))
      | none => none
    else
      match parseNat (c :: cs) with
      | some m => some (Int.ofNat m)
      | none => none

/-! ### Round-trip facts for the decimal numerals -/

theorem decVal?_decChar {d : Nat} (h : d < 10) : decVal? (decChar d) = some d := by
  interval_cases d <;> decide

theorem decChar_toNat {d : Nat} (h : d < 10) :
    48 ≤ (decChar d).toNat ∧ (decChar d).toNat ≤ 57 := by
  interval_cases d <;> decide

theorem parseDigitsAcc_append (acc : Nat) (l₁ l₂ : List Char) :
    parseDigitsAcc acc (l₁ ++ l₂) =
      match parseDigitsAcc acc l₁ with
      | some a => parseDigitsAcc a l₂
      | none => none := by
  induction l₁ generalizing acc with
  | nil => simp [parseDigitsAcc]
  | cons c cs ih =>
    simp only [List.cons_append, parseDigitsAcc]
    cases decVal? c with
    | some d => exact ih (acc * 10 + d)
    | none => rfl

theorem natDigitsAux_ne_nil {fuel n : Nat} (h : 0 < fuel) : natDigitsAux fuel n ≠ [] := by
  cases fuel with
  | zero => omega
  | succ fuel =>
    simp only [natDigitsAux]
    split <;> simp

theorem natDigitsAux_digits {fuel n : Nat} :
    ∀ c ∈ natDigitsAux fuel n, 48 ≤ c.toNat ∧ c.toNat ≤ 57 := by
  induction fuel generalizing n with
  | zero => simp [natDigitsAux]
  | succ fuel ih =>
    intro c hc
    simp only [natDigitsAux] at hc
    split at hc
    · rw [List.mem_singleton] at hc
      subst hc
      exact decChar_toNat (by omega)
    · rcases List.mem_append.mp hc with h1 | h2
      · exact ih c h1
      · rw [List.mem_singleton] at h2
        subst h2
        exact decChar_toNat (Nat.mod_lt _ (by omega))

theorem parseDigitsAcc_natDigitsAux {fuel n : Nat} (h : n < fuel) (acc : Nat) :
    parseDigitsAcc acc (natDigitsAux fuel n) =
      some (acc * 10 ^ (natDigitsAux fuel n).length + n) := by
  induction fuel generalizing n acc with
  | zero => omega
  | succ fuel ih =>
    simp only [natDigitsAux]
    split
    · next hlt =>
      simp [parseDigitsAcc, decVal?_decChar hlt]
    · next hge =>
      have hrec : n / 10 < fuel := by omega
      rw [parseDigitsAcc_append, ih hrec acc]
      have hmod : n % 10 < 10 := Nat.mod_lt _ (by omega)
      simp only [parseDigitsAcc, decVal?_decChar hmod, List.length_append,
        List.length_singleton]
      congr 1
      have h1 : (acc * 10 ^ (natDigitsAux fuel (n / 10)).length + n / 10) * 10 + n % 10 =
          acc * (10 ^ (natDigitsAux fuel (n / 10)).length * 10) + (n / 10 * 10 + n % 10) := by
        ring
      have h2 : n / 10 * 10 + n % 10 = n := by omega
      rw [h1, h2, ← pow_succ]

theorem parseNat_natDigits (n : Nat) : parseNat (natDigits n) = some n := by
  have hne : natDigits n ≠ [] := natDigitsAux_ne_nil (by omega)
  rw [parseNat, if_neg (by simpa [List.isEmpty_iff] using hne)]
  rw [natDigits, parseDigitsAcc_natDigitsAux (by omega)]
  simp

theorem natDigits_head_not_minus {n : Nat} {c : Char} {cs : List Char}
    (h : natDigits n = c :: cs) : c ≠ minusChar := by
  have hmem : c ∈ natDigits n := by rw [h]; exact List.mem_cons_self _ _
  have hdig := natDigitsAux_digits c hmem
  intro heq
  subst heq
  exact absurd hdig (by decide)

/-- Python `int(str(n))` recovers `n`: the decimal round trip. -/
theorem parseInt_intToStr (n : Int) : parseInt (intToStr n) = some n := by
  by_cases hneg : n < 0
  · rw [intToStr, if_pos hneg]
    have hdata : ("-" ++ natToStr n.natAbs).data = minusChar :: natDigits n.natAbs := by
      have : ("-" ++ natToStr n.natAbs).data = "-".data ++ (natToStr n.natAbs).data :=
        String.data_append _ _
      rw [this]
      have hm : "-".data = [minusChar] := by decide
      rw [hm]
      rfl
    rw [parseInt, hdata]
    simp only [if_pos rfl, if_true, parseNat_natDigits, Option.some.injEq]
    omega
  · rw [intToStr, if_neg hneg]
    have hne : natDigits n.natAbs ≠ [] := natDigitsAux_ne_nil (by omega)
    obtain ⟨c, cs, hcons⟩ := List.exists_cons_of_ne_nil hne
    have hc : c ≠ minusChar := natDigits_head_not_minus hcons
    have hdata : (natToStr n.natAbs).data = c :: cs := hcons
    rw [parseInt, hdata]
    simp only [if_neg hc, ← hcons, parseNat_natDigits, Int.ofNat_eq_coe, Option.some.injEq]
    omega

/-! ### The external Redis store

The store maps keys to values that are either byte strings or lists of byte
strings; we embed it as an association list.  Each client operation also
reports the Redis command it issued, so that theorems can speak about which
commands a piece of code performs and in which order. -/

/-- A Redis value: a plain byte string or a list (as built by `RPUSH`). -/
inductive RVal where
  | str (b : ByteStr)
  | list (l : List ByteStr)
deriving DecidableEq

/-- The Redis database: an association list from keys to values. -/
abbrev RedisState := List (String × RVal)

/-- Look up a key in the database. -/
def RedisState.lookup : RedisState → String → Option RVal
  | [], _ => none
  | (k0, v0) :: rest, k => if k = k0 then some v0 else RedisState.lookup rest k

/-- Write a key in the database, replacing any previous binding. -/
def RedisState.setKey : RedisState → String → RVal → RedisState
  | [], k, v => [(k, v)]
  | (k0, v0) :: rest, k, v =>
    if k = k0 then (k0, v) :: rest else (k0, v0) :: RedisState.setKey rest k v

theorem RedisState.lookup_setKey_self (db : RedisState) (k : String) (v : RVal) :
    (db.setKey k v).lookup k = some v := by
  induction db with
  | nil => simp [setKey, lookup]
  | cons hd tl ih =>
    obtain ⟨k0, v0⟩ := hd
    by_cases hk : k = k0
    · simp [setKey, lookup, hk]
    · simp [setKey, lookup, hk, ih]

theorem RedisState.lookup_setKey_ne (db : RedisState) (k : String) (v : RVal)
    {k' : String} (h : k' ≠ k) : (db.setKey k v).lookup k' = db.lookup k' := by
  induction db with
  | nil => simp [setKey, lookup, h]
  | cons hd tl ih =>
    obtain ⟨k0, v0⟩ := hd
    by_cases hk : k = k0
    · subst hk
      simp [setKey, lookup, h]
    · by_cases hk' : k' = k0
      · simp [setKey, lookup, hk, hk']
      · simp [setKey, lookup, hk, hk', ih]

/-- The Redis commands the module issues (`SET`, `GET`, `INCR`, `RPUSH`,
`LRANGE`, `EXISTS`, `FLUSHDB`). -/
inductive Cmd where
  | set (k : String) (v : ByteStr)
  | get (k : String)
  | incr (k : String)
  | rpush (k : String) (v : ByteStr)
  | lrange (k : String) (start stop : Int)
  | existsKey (k : String)
  | flushdb
deriving DecidableEq

/-- A client computation: from a database, produce a Python result or a
raised exception, the database afterwards, and the commands issued. -/
def R (α : Type) : Type := RedisState → Except String α × RedisState × List Cmd

/-- Return a value, touching neither the store nor the wire. -/
def R.pure {α : Type} (a : α) : R α := fun db => (.ok a, db, [])

/-- Raise a Python exception, touching neither the store nor the wire. -/
def R.raise {α : Type} (e : String) : R α := fun db => (.error e, db, [])

/-- Sequence two computations; a raised exception propagates, and commands
already issued stay issued. -/
def R.bind {α β : Type} (m : R α) (f : α → R β) : R β := fun db =>
  match m db with
  | (.ok a, db1, t1) =>
    match f a db1 with
    | (r, db2, t2) => (r, db2, t1 ++ t2)
  | (.error e, db1, t1) => (.error e, db1, t1)

/-- Redis error message for a command against a wrongly typed key. -/
def wrongTypeMsg : String := "WRONGTYPE Operation against a key holding the wrong kind of value"

/-- Command `SET key value`: always overwrites; replies true. -/
def rSet (k : String) (v : ByteStr) : R Bool := fun db =>
  (.ok true, db.setKey k (.str v), [Cmd.set k v])

/-- Command `GET key`: the byte string at `key`, `none` if absent, an error on a
list-typed key.  Does not modify the database. -/
def rGet (k : String) : R (Option ByteStr) := fun db =>
  match db.lookup k with
  | none => (.ok none, db, [Cmd.get k])
  | some (.str b) => (.ok (some b), db, [Cmd.get k])
  | some (.list _) => (.error wrongTypeMsg, db, [Cmd.get k])

/-- Command `INCR key`: parse the stored decimal (an absent key counts as zero),
add one, store the new decimal, and reply with the new value. -/
def rIncr (k : String) : R Int := fun db =>
  match db.lookup k with
  | none => (.ok 1, db.setKey k (.str (intToStr 1)), [Cmd.incr k])
  | some (.str b) =>
    match parseInt b with
    | some n => (.ok (n + 1), db.setKey k (.str (intToStr (n + 1))), [Cmd.incr k])
    | none => (.error "value is not an integer or out of range", db, [Cmd.incr k])
  | some (.list _) => (.error wrongTypeMsg, db, [Cmd.incr k])

/-- Command `RPUSH key value`: append to the list at `key`, creating it if absent;
reply with the new length. -/
def rRpush (k : String) (v : ByteStr) : R Nat := fun db =>
  match db.lookup k with
  | none => (.ok 1, db.setKey k (.list [v]), [Cmd.rpush k v])
  | some (.list l) => (.ok (l.length + 1), db.setKey k (.list (l ++ [v])), [Cmd.rpush k v])
  | some (.str _) => (.error wrongTypeMsg, db, [Cmd.rpush k v])

/-- The sublist `LRANGE` selects: indices are inclusive, negative indices
count from the end, and out-of-range indices are clamped. -/
def lrangeSlice (l : List ByteStr) (i j : Int) : List ByteStr :=
  let n : Int := l.length
  let s : Int := if i < 0 then max (n + i) 0 else i
  let e : Int := min (if j < 0 then n + j else j) (n - 1)
  if s > e then [] else (l.drop s.toNat).take (e - s + 1).toNat

/-- Command `LRANGE key start stop`: slice of the list at `key`; an absent key is
the empty list; error on a string-typed key.  Does not modify the database. -/
def rLrange (k : String) (i j : Int) : R (List ByteStr) := fun db =>
  match db.lookup k with
  | none => (.ok [], db, [Cmd.lrange k i j])
  | some (.list l) => (.ok (lrangeSlice l i j), db, [Cmd.lrange k i j])
  | some (.str _) => (.error wrongTypeMsg, db, [Cmd.lrange k i j])

/-- Command `EXISTS key`: how many of the named keys exist (here: one key, so 0
or 1).  Does not modify the database. -/
def rExistsKey (k : String) : R Nat := fun db =>
  (.ok (if (db.lookup k).isSome then 1 else 0), db, [Cmd.existsKey k])

/-- Command `FLUSHDB`: remove every key of the database. -/
def rFlushdb : R Bool := fun _db => (.ok true, [], [Cmd.flushdb])

/-- Reading `LRANGE key 0 -1` returns the whole list. -/
theorem lrangeSlice_all (l : List ByteStr) : lrangeSlice l 0 (-1) = l := by
  rcases l with _ | ⟨b, bs⟩
  · rfl
  · simp only [lrangeSlice]
    norm_num

/-! ### The values `Cache.store` accepts, and their client-side encoding

`Cache.store` accepts `Union[str, bytes, int, float]`.  The Redis client
encodes each as a byte string: a `str` by UTF-8 (identity in our byte
model), `bytes` verbatim, an `int` by its decimal numeral, and a `float`
by its textual repr.  A float value is modelled by that repr directly,
since the module never computes with floats — it only stores their
encoding. -/

/-- A value accepted by `Cache.store`. -/
inductive Data where
  | str (s : String)
  | bytes (b : ByteStr)
  | int (n : Int)
  | float (r : String)

/-- The byte string the Redis client sends for a stored value. -/
def encodeData : Data → ByteStr
  | .str s => s
  | .bytes b => b
  | .int n => intToStr n
  | .float r => r

/-- A Python value returned by the retrieval API: the raw bytes reply, a
decoded text, or a parsed integer. -/
inductive PyVal where
  | bytes (b : ByteStr)
  | str (s : String)
  | int (n : Int)
deriving DecidableEq

/-- The single-quote character (code point 39). -/
def quoteChar : Char := Char.ofNat 39

/-- Model of Python `repr` on the values `Cache.store` accepts (escaping
inside string literals is not modelled; the histories recorded by the
module only hold printable content). -/
def pyRepr : Data → String
  | .str s => String.singleton quoteChar ++ s ++ String.singleton quoteChar
  | .bytes b => "b" ++ String.singleton quoteChar ++ b ++ String.singleton quoteChar
  | .int n => intToStr n
  | .float r => r

/-- Model of Python `str(args)` on the positional-argument tuple: elements
by `repr`, one-element tuples with a trailing comma. -/
def reprArgs (args : List Data) : String :=
  match args with
  | [a] => "(" ++ pyRepr a ++ ",)"
  | _ => "(" ++ String.intercalate ", " (args.map pyRepr) ++ ")"

/-- Model of a Python f-string rendering a `bytes` value: its repr `b`-literal. -/
def bytesRepr (b : ByteStr) : String :=
  "b" ++ String.singleton quoteChar ++ b ++ String.singleton quoteChar

/-! ### The module: decorators, `Cache`, `replay` -/

/-- A `Cache` instance as the decorators and `replay` see it: all they
inspect of `self._redis` is whether it is a genuine `redis.Redis` client
(the `isinstance` guard); the client state itself is the `RedisState`. -/
structure CacheObj where
  genuine : Bool

/-- A method of the `Cache` class, as the decorators receive it: it takes
`self` and the positional arguments and computes in the store.  The only
decorated method, `store`, returns a string. -/
structure PyMethod where
  qualname : String
  run : CacheObj → List Data → R String

/-- Decorator `count_calls`: before delegating, and only when `self._redis` is a
genuine client, `INCR` the counter keyed by the wrapped method's
`__qualname__` (which `@wraps` preserves on the wrapper). -/
def count_calls (method : PyMethod) : PyMethod where
  qualname := method.qualname
  run := fun self args =>
    if self.genuine then
      R.bind (rIncr method.qualname) (fun _ => method.run self args)
    else
      method.run self args

/-- Decorator `call_history`: when `self._redis` is a genuine client, `RPUSH` the
textual arguments to `<qualname>:inputs`, delegate, then `RPUSH` the
result to `<qualname>:outputs`; the result is returned.  `@wraps`
preserves `__qualname__`. -/
def call_history (method : PyMethod) : PyMethod where
  qualname := method.qualname
  run := fun self args =>
    let in_key := method.qualname ++ ":inputs"
    let out_key := method.qualname ++ ":outputs"
    R.bind
      (if self.genuine then R.bind (rRpush in_key (reprArgs args)) (fun _ => R.pure ()) else R.pure ())
      (fun _ =>
        R.bind (method.run self args) (fun result =>
          if self.genuine then
            R.bind (rRpush out_key result) (fun _ => R.pure result)
          else
            R.pure result))

/-- The undecorated body of `Cache.store`: write the encoded data under the
fresh random key and return the key.  `key` is the oracle for
`str(uuid.uuid4())`; a call with other than one positional argument is a
`TypeError`. -/
def store_body (key : String) : PyMethod where
  qualname := "Cache.store"
  run := fun _self args =>
    match args with
    | [data] => R.bind (rSet key (encodeData data)) (fun _ => R.pure key)
    | _ => R.raise "TypeError"

/-- Method `Cache.store` as defined: `@call_history` outside, `@count_calls` inside. -/
def Cache.store (key : String) : PyMethod :=
  call_history (count_calls (store_body key))

/-- Method `Cache.get`: fetch the raw value; apply `transform` only when one is
given and a value was found, otherwise return the raw reply (the bytes, or
`none` for a missing key). -/
def Cache.get (key : String) (transform : Option (ByteStr → Except String PyVal)) :
    R (Option PyVal) :=
  R.bind (rGet key) (fun data =>
    match transform, data with
    | some t, some b =>
      match t b with
      | .ok v => R.pure (some v)
      | .error e => R.raise e
    | _, _ => R.pure (data.map PyVal.bytes))

/-- Method `Cache.get_str`: `get` with the UTF-8 decode transform (identity on
content in our byte model). -/
def Cache.get_str (key : String) : R (Option PyVal) :=
  Cache.get key (some (fun b => .ok (PyVal.str b)))

/-- Method `Cache.get_int`: `get` with the `int(x)` transform, which raises
`ValueError` on non-numeric bytes. -/
def Cache.get_int (key : String) : R (Option PyVal) :=
  Cache.get key (some (fun b =>
    match parseInt b with
    | some n => .ok (PyVal.int n)
    | none => .error "ValueError"))

/-- Constructor `Cache.__init__`: connect a genuine client and `FLUSHDB` the database. -/
def cacheInit : R CacheObj :=
  R.bind rFlushdb (fun _ => R.pure { genuine := true })

/-- A bound-method reference as `replay` inspects it: the method's
`__qualname__` and, when the reference carries one, the owning instance
(`__self__`). -/
structure BoundMethod where
  qualname : String
  owner : Option CacheObj

/-- Function `replay`: silently return when the reference is absent, has no
`__self__`, or the owner's `_redis` is not a genuine client; otherwise
read the counter (an absent counter key reads as zero), read both history
lists in full, and print the header line followed by one line per paired
input/output.  The printed lines are the returned list. -/
def replay (method : Option BoundMethod) : R (List String) :=
  match method with
  | none => R.pure []
  | some m =>
    match m.owner with
    | none => R.pure []
    | some self =>
      if self.genuine then
        let name := m.qualname
        let in_key := name ++ ":inputs"
        let out_key := name ++ ":outputs"
        R.bind (rExistsKey name) (fun ex =>
          R.bind
            (if ex ≠ 0 then
              R.bind (rGet name) (fun v =>
                match v with
                | some b =>
                  match parseInt b with
                  | some n => R.pure n
                  | none => R.raise "ValueError"
                | none => R.raise "TypeError")
            else R.pure 0)
            (fun call_count =>
              R.bind (rLrange in_key 0 (-1)) (fun inputs =>
                R.bind (rLrange out_key 0 (-1)) (fun outputs =>
                  R.pure ((name ++ " was called " ++ intToStr call_count ++ " times:") ::
                    (inputs.zip outputs).map (fun p =>
                      name ++ "(*" ++ p.1 ++ ") -> " ++ bytesRepr p.2))))))
      else R.pure []

/-- Call `Cache.store` once per pair, with the pair's first component as
the fresh-key oracle and its second as the data; collect the keys
returned. -/
def storeSeq (self : CacheObj) : List (String × Data) → R (List String)
  | [] => R.pure []
  | (key, d) :: rest =>
    R.bind ((Cache.store key).run self [d]) (fun k =>
      R.bind (storeSeq self rest) (fun ks => R.pure (k :: ks)))

/-! ### Vocabulary for the theorems -/

/-- The stable identifier of the tracked method: `Cache.store.__qualname__`. -/
def qualStore : String := "Cache.store"

/-- The counter at `q` reads as the natural number `c`: either the decimal
of `c` is stored, or the key is absent and `c` is zero (how both `INCR`
and `replay` treat a missing counter). -/
def counterIs (db : RedisState) (q : String) (c : Nat) : Prop :=
  db.lookup q = some (.str (intToStr (c : Int))) ∨ (c = 0 ∧ db.lookup q = none)

/-- The history list at `k` holds exactly the items `l`: either stored as a
list value, or absent and `l` empty (how both `RPUSH` and `LRANGE` treat a
missing list). -/
def listIs (db : RedisState) (k : String) (l : List ByteStr) : Prop :=
  db.lookup k = some (.list l) ∨ (l = [] ∧ db.lookup k = none)

/-- The items `LRANGE k 0 -1` would return, when `k` is not string-typed. -/
def getListItems (db : RedisState) (k : String) : Option (List ByteStr) :=
  match db.lookup k with
  | none => some []
  | some (.list l) => some l
  | some (.str _) => none

/-- Length of the list at `k`, zero when absent or not a list. -/
def histLen (db : RedisState) (k : String) : Nat :=
  match db.lookup k with
  | some (.list l) => l.length
  | _ => 0

/-- Commands that never modify the database. -/
def isReadCmd : Cmd → Bool
  | .get _ => true
  | .lrange _ _ _ => true
  | .existsKey _ => true
  | _ => false

/-- The silently-skipped preconditions of `replay`: no reference, no
`__self__`, or an owner whose `_redis` is not a genuine client. -/
def replayGuardFails : Option BoundMethod → Prop
  | none => True
  | some m =>
    match m.owner with
    | none => True
    | some self => self.genuine = false

/-! ### Key-distinctness facts -/

theorem inputs_ne_outputs (q : String) : q ++ ":inputs" ≠ q ++ ":outputs" := by
  intro h
  have hdata : (q ++ ":inputs").data = (q ++ ":outputs").data := congrArg String.data h
  rw [String.data_append, String.data_append] at hdata
  have := List.append_cancel_left hdata
  exact absurd (congrArg String.mk this) (by decide)

theorem qual_ne_inputs (q : String) : q ≠ q ++ ":inputs" := by
  intro h
  have hdata : q.data = (q ++ ":inputs").data := congrArg String.data h
  rw [String.data_append] at hdata
  have : q.data ++ [] = q.data ++ ":inputs".data := by simpa using hdata
  have := List.append_cancel_left this
  exact absurd (congrArg String.mk this.symm) (by decide)

theorem qual_ne_outputs (q : String) : q ≠ q ++ ":outputs" := by
  intro h
  have hdata : q.data = (q ++ ":outputs").data := congrArg String.data h
  rw [String.data_append] at hdata
  have : q.data ++ [] = q.data ++ ":outputs".data := by simpa using hdata
  have := List.append_cancel_left this
  exact absurd (congrArg String.mk this.symm) (by decide)

/-! ### Frame lemmas for the primitives -/

theorem rSet_lookup_ne (k : String) (v : ByteStr) (db : RedisState) {k' : String}
    (h : k' ≠ k) : ((rSet k v db).2.1).lookup k' = db.lookup k' := by
  simp [rSet, RedisState.lookup_setKey_ne _ _ _ h]

theorem rIncr_lookup_ne (k : String) (db : RedisState) {k' : String}
    (h : k' ≠ k) : ((rIncr k db).2.1).lookup k' = db.lookup k' := by
  unfold rIncr
  rcases hl : db.lookup k with _ | ⟨b⟩ | ⟨l⟩ <;>
    simp [RedisState.lookup_setKey_ne _ _ _ h]
  rcases parseInt b with _ | n <;> simp [RedisState.lookup_setKey_ne _ _ _ h]

theorem rRpush_lookup_ne (k : String) (v : ByteStr) (db : RedisState) {k' : String}
    (h : k' ≠ k) : ((rRpush k v db).2.1).lookup k' = db.lookup k' := by
  unfold rRpush
  rcases hl : db.lookup k with _ | ⟨b⟩ | ⟨l⟩ <;>
    simp [RedisState.lookup_setKey_ne _ _ _ h]

/-! ### C5: missing-key sentinel -/

/-- C5.  Missing-key sentinel: for a key absent from the store, `Cache.get`
returns the no-value sentinel `none` without raising, and a supplied
transform is never invoked on the absent value (the result is `.ok none`
for every transform, including ones that would raise); `get_str` and
`get_int` likewise return the sentinel unchanged. -/
theorem missing_key_sentinel (db : RedisState) (key : String)
    (tr : Option (ByteStr → Except String PyVal)) (habs : db.lookup key = none) :
    (Cache.get key tr db).1 = .ok none ∧
    (Cache.get_str key db).1 = .ok none ∧
    (Cache.get_int key db).1 = .ok none := by
  refine ⟨?_, ?_, ?_⟩
  · cases tr with
    | none => simp [Cache.get, R.bind, rGet, habs, R.pure]
    | some t => simp [Cache.get, R.bind, rGet, habs, R.pure]
  · simp [Cache.get_str, Cache.get, R.bind, rGet, habs, R.pure]
  · simp [Cache.get_int, Cache.get, R.bind, rGet, habs, R.pure]

/-- Witness for C5 at a concrete absent key, with a transform that would
raise if it were invoked. -/
theorem missing_key_sentinel_witness :
    ([("k", RVal.str "v")] : RedisState).lookup "nonexistent-key" = none ∧
    ((Cache.get "nonexistent-key" (some (fun _ => .error "boom")) [("k", RVal.str "v")]).1
        = .ok none ∧
      (Cache.get_str "nonexistent-key" [("k", RVal.str "v")]).1 = .ok none ∧
      (Cache.get_int "nonexistent-key" [("k", RVal.str "v")]).1 = .ok none) :=
  ⟨by decide, missing_key_sentinel [("k", RVal.str "v")] "nonexistent-key"
      (some (fun _ => .error "boom")) (by decide)⟩

/-! ### C7: replay silently skips its failed preconditions -/

/-- C7.  Whenever the method reference is absent, lacks an owning-instance
back-reference, or the owning instance's store handle is not a genuine
client, `replay` returns without printing anything, without raising, and
without issuing any command, leaving the store untouched. -/
theorem replay_silent_noop (mo : Option BoundMethod) (db : RedisState)
    (h : replayGuardFails mo) : replay mo db = (.ok [], db, []) := by
  cases mo with
  | none => rfl
  | some m =>
    cases hm : m.owner with
    | none => simp [replay, hm, R.pure]
    | some self =>
      simp only [replayGuardFails, hm] at h
      simp [replay, hm, h, R.pure]

/-- Witness for C7: an owner whose handle is not a genuine client, over a
nonempty store. -/
theorem replay_silent_noop_witness :
    replayGuardFails (some { qualname := "Cache.store", owner := some { genuine := false } }) ∧
    replay (some { qualname := "Cache.store", owner := some { genuine := false } })
        [("k", RVal.str "v")] = (.ok [], [("k", RVal.str "v")], []) :=
  ⟨rfl, replay_silent_noop _ _ rfl⟩

/-! ### C8: construction flushes the whole database -/

/-- C8.  Constructing a `Cache` unconditionally flushes the backing
database: whatever the prior state, afterwards every key is absent —
in particular the counter for `store` no longer exists, so it reads zero,
and `replay` right after construction reports zero calls. -/
theorem cacheInit_flushes (db : RedisState) :
    (cacheInit db).1 = .ok { genuine := true } ∧
    (cacheInit db).2.1 = [] ∧
    (∀ k, ((cacheInit db).2.1).lookup k = none) ∧
    (rExistsKey qualStore ((cacheInit db).2.1)).1 = .ok 0 ∧
    (replay (some { qualname := qualStore, owner := some { genuine := true } })
        ((cacheInit db).2.1)).1 = .ok [qualStore ++ " was called " ++ intToStr 0 ++ " times:"] :=
  ⟨rfl, rfl, fun _ => rfl, rfl, rfl⟩

/-! ### Compositional reasoning over `R` -/

/-- Computation `m` never changes what is stored under `k'`. -/
def PreservesLookup (k' : String) {α : Type} (m : R α) : Prop :=
  ∀ db, (((m db).2.1).lookup k') = db.lookup k'

/-- Computation `m` returns the database exactly as it found it. -/
def PreservesState {α : Type} (m : R α) : Prop :=
  ∀ db, (m db).2.1 = db

/-- Computation `m` issues only read commands. -/
def TraceReads {α : Type} (m : R α) : Prop :=
  ∀ db, ((m db).2.2).all isReadCmd = true

theorem preservesLookup_pure {α : Type} (k' : String) (a : α) :
    PreservesLookup k' (R.pure a) := fun _ => rfl

theorem preservesLookup_raise {α : Type} (k' e : String) :
    PreservesLookup k' (R.raise (α := α) e) := fun _ => rfl

theorem preservesLookup_bind {α β : Type} {k' : String} {m : R α} {f : α → R β}
    (hm : PreservesLookup k' m) (hf : ∀ a, PreservesLookup k' (f a)) :
    PreservesLookup k' (R.bind m f) := by
  intro db
  unfold R.bind
  rcases hsplit : m db with ⟨r, db1, t1⟩
  have hm' := hm db
  rw [hsplit] at hm'
  cases r with
  | ok a =>
    rcases hs2 : f a db1 with ⟨r2, db2, t2⟩
    have hf' := hf a db1
    rw [hs2] at hf'
    simp only at hm' hf'
    simp only [hs2]
    exact hf'.trans hm'
  | error e => simpa using hm'

theorem preservesState_pure {α : Type} (a : α) : PreservesState (R.pure a) := fun _ => rfl

theorem preservesState_raise {α : Type} (e : String) :
    PreservesState (R.raise (α := α) e) := fun _ => rfl

theorem preservesState_bind {α β : Type} {m : R α} {f : α → R β}
    (hm : PreservesState m) (hf : ∀ a, PreservesState (f a)) :
    PreservesState (R.bind m f) := by
  intro db
  unfold R.bind
  rcases hsplit : m db with ⟨r, db1, t1⟩
  have hm' := hm db
  rw [hsplit] at hm'
  cases r with
  | ok a =>
    rcases hs2 : f a db1 with ⟨r2, db2, t2⟩
    have hf' := hf a db1
    rw [hs2] at hf'
    simp only at hm' hf'
    simp only [hs2]
    exact hf'.trans hm'
  | error e => simpa using hm'

theorem traceReads_pure {α : Type} (a : α) : TraceReads (R.pure a) := fun _ => rfl

theorem traceReads_raise {α : Type} (e : String) :
    TraceReads (R.raise (α := α) e) := fun _ => rfl

theorem traceReads_bind {α β : Type} {m : R α} {f : α → R β}
    (hm : TraceReads m) (hf : ∀ a, TraceReads (f a)) : TraceReads (R.bind m f) := by
  intro db
  unfold R.bind
  rcases hsplit : m db with ⟨r, db1, t1⟩
  have hm' := hm db
  rw [hsplit] at hm'
  cases r with
  | ok a =>
    rcases hs2 : f a db1 with ⟨r2, db2, t2⟩
    have hf' := hf a db1
    rw [hs2] at hf'
    simp only at hm' hf'
    simp only [hs2, List.all_append]
    simp [hm', hf']
  | error e => simpa using hm'

theorem preservesLookup_rSet {k k' : String} (v : ByteStr) (h : k' ≠ k) :
    PreservesLookup k' (rSet k v) := fun db => rSet_lookup_ne k v db h

theorem preservesLookup_rIncr {k k' : String} (h : k' ≠ k) :
    PreservesLookup k' (rIncr k) := fun db => rIncr_lookup_ne k db h

theorem preservesLookup_rRpush {k k' : String} (v : ByteStr) (h : k' ≠ k) :
    PreservesLookup k' (rRpush k v) := fun db => rRpush_lookup_ne k v db h

theorem preservesState_rGet (k : String) : PreservesState (rGet k) := by
  intro db
  unfold rGet
  split <;> rfl

theorem preservesState_rLrange (k : String) (i j : Int) :
    PreservesState (rLrange k i j) := by
  intro db
  unfold rLrange
  split <;> rfl

theorem preservesState_rExistsKey (k : String) : PreservesState (rExistsKey k) :=
  fun _ => rfl

theorem traceReads_rGet (k : String) : TraceReads (rGet k) := by
  intro db
  unfold rGet
  split <;> rfl

theorem traceReads_rLrange (k : String) (i j : Int) : TraceReads (rLrange k i j) := by
  intro db
  unfold rLrange
  split <;> rfl

theorem traceReads_rExistsKey (k : String) : TraceReads (rExistsKey k) :=
  fun _ => rfl

/-! ### C9: frame effect of a single `Cache.store` call -/

/-- C9.  A single call to `Cache.store` touches at most the fresh data key,
the counter key, the inputs-list key and the outputs-list key of `store`:
the value of every other key is unchanged, on every execution path (even a
failing one) and whatever the handle. -/
theorem store_frame (self : CacheObj) (key : String) (d : Data) (db : RedisState)
    {k' : String} (h1 : k' ≠ key) (h2 : k' ≠ qualStore)
    (h3 : k' ≠ qualStore ++ ":inputs") (h4 : k' ≠ qualStore ++ ":outputs") :
    ((((Cache.store key).run self [d] db).2.1).lookup k') = db.lookup k' := by
  have hbody : PreservesLookup k' ((store_body key).run self [d]) := by
    unfold store_body
    exact preservesLookup_bind (preservesLookup_rSet _ h1)
      (fun _ => preservesLookup_pure _ _)
  have hcount : PreservesLookup k' ((count_calls (store_body key)).run self [d]) := by
    unfold count_calls
    cases hgen : self.genuine with
    | false => simpa [hgen] using hbody
    | true =>
      simp only [hgen, if_true]
      exact preservesLookup_bind (preservesLookup_rIncr h2) (fun _ => hbody)
  have hwhole : PreservesLookup k' ((Cache.store key).run self [d]) := by
    unfold Cache.store call_history
    simp only [count_calls, store_body]
    cases hgen : self.genuine with
    | false =>
      simp only [hgen, Bool.false_eq_true, if_false]
      refine preservesLookup_bind (preservesLookup_pure _ _) (fun _ => ?_)
      refine preservesLookup_bind ?_ (fun r => preservesLookup_pure _ _)
      simpa [count_calls, store_body, hgen] using hcount
    | true =>
      simp only [hgen, if_true]
      refine preservesLookup_bind
        (preservesLookup_bind (preservesLookup_rRpush _ h3)
          (fun _ => preservesLookup_pure _ _)) (fun _ => ?_)
      refine preservesLookup_bind ?_ (fun r => ?_)
      · simpa [count_calls, store_body, hgen] using hcount
      · exact preservesLookup_bind (preservesLookup_rRpush _ h4)
          (fun _ => preservesLookup_pure _ _)
  exact hwhole db

/-- Witness for C9: a pre-existing entry under another key survives a
store call unchanged. -/
theorem store_frame_witness :
    ("other" ≠ "k1" ∧ "other" ≠ qualStore ∧ "other" ≠ qualStore ++ ":inputs" ∧
      "other" ≠ qualStore ++ ":outputs") ∧
    ((((Cache.store "k1").run { genuine := true } [Data.str "v"]
        [("other", RVal.str "z")]).2.1).lookup "other") =
      ([("other", RVal.str "z")] : RedisState).lookup "other" :=
  ⟨⟨by decide, by decide, by decide, by decide⟩,
    store_frame { genuine := true } "k1" (Data.str "v") [("other", RVal.str "z")]
      (by decide) (by decide) (by decide) (by decide)⟩

/-! ### C10: the read operations are pure and issue only read commands -/

theorem preservesState_get (key : String) (tr : Option (ByteStr → Except String PyVal)) :
    PreservesState (Cache.get key tr) := by
  unfold Cache.get
  refine preservesState_bind (preservesState_rGet key) (fun data => ?_)
  cases tr with
  | none =>
    simp only []
    exact preservesState_pure _
  | some t =>
    cases data with
    | none =>
      simp only []
      exact preservesState_pure _
    | some b =>
      simp only []
      cases htb : t b with
      | ok v => simp only [htb]; exact preservesState_pure _
      | error e => simp only [htb]; exact preservesState_raise _

theorem traceReads_get (key : String) (tr : Option (ByteStr → Except String PyVal)) :
    TraceReads (Cache.get key tr) := by
  unfold Cache.get
  refine traceReads_bind (traceReads_rGet key) (fun data => ?_)
  cases tr with
  | none =>
    simp only []
    exact traceReads_pure _
  | some t =>
    cases data with
    | none =>
      simp only []
      exact traceReads_pure _
    | some b =>
      simp only []
      cases htb : t b with
      | ok v => simp only [htb]; exact traceReads_pure _
      | error e => simp only [htb]; exact traceReads_raise _

theorem preservesState_replay (mo : Option BoundMethod) : PreservesState (replay mo) := by
  cases mo with
  | none => exact preservesState_pure _
  | some m =>
    cases hm : m.owner with
    | none =>
      simp only [replay, hm]
      exact preservesState_pure _
    | some self =>
      cases hgen : self.genuine with
      | false =>
        simp [replay, hm, hgen]
        exact preservesState_pure _
      | true =>
        simp only [replay, hm, hgen, if_true]
        refine preservesState_bind (preservesState_rExistsKey _) (fun ex => ?_)
        refine preservesState_bind ?_ (fun cnt => ?_)
        · by_cases hex : ex ≠ 0
          · simp only [if_pos hex]
            refine preservesState_bind (preservesState_rGet _) (fun v => ?_)
            cases v with
            | none =>
              simp only []
              exact preservesState_raise _
            | some b =>
              simp only []
              cases hp : parseInt b with
              | none => simp only [hp]; exact preservesState_raise _
              | some n => simp only [hp]; exact preservesState_pure _
          · simp only [if_neg hex]
            exact preservesState_pure _
        · refine preservesState_bind (preservesState_rLrange _ _ _) (fun inputs => ?_)
          exact preservesState_bind (preservesState_rLrange _ _ _)
            (fun outputs => preservesState_pure _)

theorem traceReads_replay (mo : Option BoundMethod) : TraceReads (replay mo) := by
  cases mo with
  | none => exact traceReads_pure _
  | some m =>
    cases hm : m.owner with
    | none =>
      simp only [replay, hm]
      exact traceReads_pure _
    | some self =>
      cases hgen : self.genuine with
      | false =>
        simp [replay, hm, hgen]
        exact traceReads_pure _
      | true =>
        simp only [replay, hm, hgen, if_true]
        refine traceReads_bind (traceReads_rExistsKey _) (fun ex => ?_)
        refine traceReads_bind ?_ (fun cnt => ?_)
        · by_cases hex : ex ≠ 0
          · simp only [if_pos hex]
            refine traceReads_bind (traceReads_rGet _) (fun v => ?_)
            cases v with
            | none =>
              simp only []
              exact traceReads_raise _
            | some b =>
              simp only []
              cases hp : parseInt b with
              | none => simp only [hp]; exact traceReads_raise _
              | some n => simp only [hp]; exact traceReads_pure _
          · simp only [if_neg hex]
            exact traceReads_pure _
        · refine traceReads_bind (traceReads_rLrange _ _ _) (fun inputs => ?_)
          exact traceReads_bind (traceReads_rLrange _ _ _)
            (fun outputs => traceReads_pure _)

/-- C10.  `Cache.get`, `Cache.get_str`, `Cache.get_int` and `replay` leave
the entire store unchanged on every input, and every command they issue is
a read command (`GET`, `LRANGE`, `EXISTS`). -/
theorem reads_pure (db : RedisState) (key : String)
    (tr : Option (ByteStr → Except String PyVal)) (mo : Option BoundMethod) :
    ((Cache.get key tr db).2.1 = db ∧ ((Cache.get key tr db).2.2).all isReadCmd = true) ∧
    ((Cache.get_str key db).2.1 = db ∧ ((Cache.get_str key db).2.2).all isReadCmd = true) ∧
    ((Cache.get_int key db).2.1 = db ∧ ((Cache.get_int key db).2.2).all isReadCmd = true) ∧
    ((replay mo db).2.1 = db ∧ ((replay mo db).2.2).all isReadCmd = true) :=
  ⟨⟨preservesState_get key tr db, traceReads_get key tr db⟩,
    ⟨preservesState_get key _ db, traceReads_get key _ db⟩,
    ⟨preservesState_get key _ db, traceReads_get key _ db⟩,
    ⟨preservesState_replay mo db, traceReads_replay mo db⟩⟩

/-! ### Stepping lemmas for successful runs -/

theorem R.pure_eq {α : Type} (a : α) (db : RedisState) : R.pure a db = (.ok a, db, []) := rfl

theorem R.bind_ok {α β : Type} {m : R α} {a : α} {db1 : RedisState} {t1 : List Cmd}
    (f : α → R β) (db : RedisState) (h : m db = (.ok a, db1, t1)) :
    R.bind m f db = ((f a db1).1, (f a db1).2.1, t1 ++ (f a db1).2.2) := by
  unfold R.bind
  rw [h]

theorem R.bind_error {α β : Type} {m : R α} {e : String} {db1 : RedisState} {t1 : List Cmd}
    (f : α → R β) (db : RedisState) (h : m db = (.error e, db1, t1)) :
    R.bind m f db = (.error e, db1, t1) := by
  unfold R.bind
  rw [h]

/-- Command `RPUSH` on a key currently holding the items `l` (or absent with `l`
empty) appends and reports the new length. -/
theorem rRpush_of_listIs {db : RedisState} {k : String} {l : List ByteStr}
    (h : listIs db k l) (v : ByteStr) :
    rRpush k v db = (.ok (l.length + 1), db.setKey k (.list (l ++ [v])), [Cmd.rpush k v]) := by
  rcases h with h | ⟨hl, h⟩
  · simp [rRpush, h]
  · subst hl
    simp [rRpush, h]

/-- Command `INCR` on a counter currently reading `c` stores and reports `c + 1`. -/
theorem rIncr_of_counterIs {db : RedisState} {q : String} {c : Nat}
    (h : counterIs db q c) :
    rIncr q db = (.ok ((c : Int) + 1), db.setKey q (.str (intToStr ((c : Int) + 1))),
      [Cmd.incr q]) := by
  rcases h with h | ⟨hc0, h⟩
  · simp [rIncr, h, parseInt_intToStr]
  · subst hc0
    simp [rIncr, h]

theorem counterIs_setKey_ne {db : RedisState} {q : String} {c : Nat}
    (h : counterIs db q c) {k : String} (v : RVal) (hne : q ≠ k) :
    counterIs (db.setKey k v) q c := by
  rcases h with h | ⟨hc0, h⟩
  · exact Or.inl (by rw [RedisState.lookup_setKey_ne _ _ _ hne, h])
  · exact Or.inr ⟨hc0, by rw [RedisState.lookup_setKey_ne _ _ _ hne, h]⟩

theorem listIs_setKey_ne {db : RedisState} {k0 : String} {l : List ByteStr}
    (h : listIs db k0 l) {k : String} (v : RVal) (hne : k0 ≠ k) :
    listIs (db.setKey k v) k0 l := by
  rcases h with h | ⟨hl, h⟩
  · exact Or.inl (by rw [RedisState.lookup_setKey_ne _ _ _ hne, h])
  · exact Or.inr ⟨hl, by rw [RedisState.lookup_setKey_ne _ _ _ hne, h]⟩

theorem counterIs_setKey_self {db : RedisState} {q : String} (c : Nat) :
    counterIs (db.setKey q (.str (intToStr (c : Int)))) q c :=
  Or.inl (by rw [RedisState.lookup_setKey_self])

theorem listIs_setKey_self {db : RedisState} {k : String} (l : List ByteStr) :
    listIs (db.setKey k (.list l)) k l :=
  Or.inl (by rw [RedisState.lookup_setKey_self])

/-- Complete characterization of a successful `Cache.store` call with a
genuine client: the inputs push, the counter increment, the data write and
the outputs push happen in that order, and the call returns the fresh key. -/
theorem store_run_ok (self : CacheObj) (key : String) (d : Data) (db : RedisState)
    {c : Nat} {ins outs : List ByteStr}
    (hg : self.genuine = true)
    (hc : counterIs db qualStore c)
    (hin : listIs db (qualStore ++ ":inputs") ins)
    (hout : listIs db (qualStore ++ ":outputs") outs)
    (hko : key ≠ qualStore ++ ":outputs") :
    (Cache.store key).run self [d] db =
      (.ok key,
        ((((db.setKey (qualStore ++ ":inputs") (.list (ins ++ [reprArgs [d]]))).setKey
            qualStore (.str (intToStr ((c : Int) + 1)))).setKey
            key (.str (encodeData d))).setKey
            (qualStore ++ ":outputs") (.list (outs ++ [key]))),
        [Cmd.rpush (qualStore ++ ":inputs") (reprArgs [d]), Cmd.incr qualStore,
          Cmd.set key (encodeData d), Cmd.rpush (qualStore ++ ":outputs") key]) := by
  simp only [Cache.store, call_history, count_calls, store_body, hg, if_true]
  rw [show ("Cache.store" : String) = qualStore from rfl]
  set x := reprArgs [d] with hx
  set db1 := db.setKey (qualStore ++ ":inputs") (.list (ins ++ [x])) with hdb1
  have h1 : rRpush (qualStore ++ ":inputs") x db =
      (.ok (ins.length + 1), db1, [Cmd.rpush (qualStore ++ ":inputs") x]) :=
    rRpush_of_listIs hin x
  have hA : R.bind (rRpush (qualStore ++ ":inputs") x) (fun _ => R.pure ()) db =
      (.ok (), db1, [Cmd.rpush (qualStore ++ ":inputs") x]) := by
    rw [R.bind_ok _ db h1]
    rfl
  rw [R.bind_ok _ db hA]
  have hc1 : counterIs db1 qualStore c :=
    counterIs_setKey_ne hc _ (qual_ne_inputs qualStore)
  set db2 := db1.setKey qualStore (.str (intToStr ((c : Int) + 1))) with hdb2
  have h2 : rIncr qualStore db1 =
      (.ok ((c : Int) + 1), db2, [Cmd.incr qualStore]) :=
    rIncr_of_counterIs hc1
  set db3 := db2.setKey key (.str (encodeData d)) with hdb3
  have h3 : rSet key (encodeData d) db2 = (.ok true, db3, [Cmd.set key (encodeData d)]) := rfl
  have hbody : R.bind (rSet key (encodeData d)) (fun _ => R.pure key) db2 =
      (.ok key, db3, [Cmd.set key (encodeData d)]) := by
    rw [R.bind_ok _ db2 h3]
    rfl
  have hB : R.bind (rIncr qualStore)
      (fun _ => R.bind (rSet key (encodeData d)) (fun _ => R.pure key)) db1 =
      (.ok key, db3, [Cmd.incr qualStore, Cmd.set key (encodeData d)]) := by
    rw [R.bind_ok _ db1 h2, hbody]
    rfl
  rw [R.bind_ok _ db1 hB]
  have hout3 : listIs db3 (qualStore ++ ":outputs") outs := by
    refine listIs_setKey_ne (listIs_setKey_ne (listIs_setKey_ne hout _
      (Ne.symm (inputs_ne_outputs qualStore))) _ (Ne.symm (qual_ne_outputs qualStore))) _
      (Ne.symm hko)
  have h4 : rRpush (qualStore ++ ":outputs") key db3 =
      (.ok (outs.length + 1), db3.setKey (qualStore ++ ":outputs") (.list (outs ++ [key])),
        [Cmd.rpush (qualStore ++ ":outputs") key]) :=
    rRpush_of_listIs hout3 key
  have hC : R.bind (rRpush (qualStore ++ ":outputs") key) (fun _ => R.pure key) db3 =
      (.ok key, db3.setKey (qualStore ++ ":outputs") (.list (outs ++ [key])),
        [Cmd.rpush (qualStore ++ ":outputs") key]) := by
    rw [R.bind_ok _ db3 h4]
    rfl
  rw [hC]
  rfl

/-- After any successful `Cache.store` call — genuine handle or not — the
returned value is the fresh key and the encoded data sits under it. -/
theorem store_ok_lookup (self : CacheObj) (key : String) (d : Data) (db : RedisState)
    {k : String} (hok : ((Cache.store key).run self [d] db).1 = .ok k) :
    k = key ∧
      ((((Cache.store key).run self [d] db).2.1).lookup key) = some (.str (encodeData d)) := by
  cases hgen : self.genuine with
  | false =>
    simp only [Cache.store, call_history, count_calls, store_body, hgen, Bool.false_eq_true,
      if_false, R.bind, R.pure, rSet] at hok ⊢
    exact ⟨(Except.ok.inj hok).symm, RedisState.lookup_setKey_self _ _ _⟩
  | true =>
    simp only [Cache.store, call_history, count_calls, store_body, hgen, if_true,
      R.bind, R.pure, rRpush, rIncr, rSet] at hok ⊢
    rcases hin0 : db.lookup ("Cache.store" ++ ":inputs") with _ | ⟨b0⟩ | ⟨l0⟩ <;>
      simp only [hin0] at hok ⊢
    all_goals try (solve | simp at hok)
    all_goals
      rw [RedisState.lookup_setKey_ne _ _ _
        (by decide : ("Cache.store" : String) ≠ "Cache.store" ++ ":inputs")] at hok ⊢
    all_goals
      rcases hq0 : db.lookup "Cache.store" with _ | ⟨b1⟩ | ⟨l1⟩ <;>
        simp only [hq0] at hok ⊢
    all_goals try (solve | simp at hok)
    all_goals try (rcases hp : parseInt b1 with _ | n <;> simp only [hp] at hok ⊢)
    all_goals try (solve | simp at hok)
    all_goals by_cases hko : key = "Cache.store" ++ ":outputs"
    all_goals try (solve
      | (rw [hko, RedisState.lookup_setKey_self] at hok
         simp at hok))
    all_goals
      rw [RedisState.lookup_setKey_ne _ _ _ (fun h => hko h.symm),
        RedisState.lookup_setKey_ne _ _ _
          (by decide : ("Cache.store" ++ ":outputs" : String) ≠ "Cache.store"),
        RedisState.lookup_setKey_ne _ _ _
          (by decide : ("Cache.store" ++ ":outputs" : String) ≠ "Cache.store" ++ ":inputs")] at hok ⊢
    all_goals
      rcases hout0 : db.lookup ("Cache.store" ++ ":outputs") with _ | ⟨b2⟩ | ⟨l2⟩ <;>
        simp only [hout0] at hok ⊢
    all_goals try (solve | simp at hok)
    all_goals refine ⟨(Except.ok.inj hok).symm, ?_⟩
    all_goals rw [RedisState.lookup_setKey_ne _ _ _ hko, RedisState.lookup_setKey_self]

/-! ### C1: round trip through the store -/

/-- C1.  Round trip: whenever `Cache.store` returns a key `k` for a value
`v` (of any supported kind — text, bytes, integer, float), `Cache.get`
with no transform returns exactly the byte encoding of `v`; for a text
value `get_str` returns the text itself, and for an integer value
`get_int` returns the integer itself. -/
theorem store_get_round_trip (self : CacheObj) (key : String) (v : Data) (db : RedisState)
    {k : String} (hok : ((Cache.store key).run self [v] db).1 = .ok k) :
    k = key ∧
    (Cache.get k none (((Cache.store key).run self [v] db).2.1)).1 =
      .ok (some (.bytes (encodeData v))) ∧
    (∀ s, v = .str s →
      (Cache.get_str k (((Cache.store key).run self [v] db).2.1)).1 = .ok (some (.str s))) ∧
    (∀ n, v = .int n →
      (Cache.get_int k (((Cache.store key).run self [v] db).2.1)).1 = .ok (some (.int n))) := by
  obtain ⟨hk, hlook⟩ := store_ok_lookup self key v db hok
  subst hk
  refine ⟨rfl, ?_, ?_, ?_⟩
  · simp [Cache.get, R.bind, rGet, hlook, R.pure]
  · intro s hs
    subst hs
    simp [Cache.get_str, Cache.get, R.bind, rGet, hlook, R.pure, encodeData]
  · intro n hn
    subst hn
    simp [Cache.get_int, Cache.get, R.bind, rGet, hlook, R.pure, encodeData,
      parseInt_intToStr]

/-- Witness for C1: storing the integer 42 under fresh key `k1` in an
empty store; `get` returns its decimal encoding and `get_int` returns 42. -/
theorem store_get_round_trip_witness :
    ((Cache.store "k1").run { genuine := true } [Data.int 42] []).1 = .ok "k1" ∧
    (Cache.get "k1" none
        (((Cache.store "k1").run { genuine := true } [Data.int 42] []).2.1)).1 =
      .ok (some (.bytes (encodeData (Data.int 42)))) ∧
    (Cache.get_int "k1"
        (((Cache.store "k1").run { genuine := true } [Data.int 42] []).2.1)).1 =
      .ok (some (.int 42)) := by
  have h : ((Cache.store "k1").run { genuine := true } [Data.int 42] []).1 = .ok "k1" := rfl
  exact ⟨h, (store_get_round_trip { genuine := true } "k1" (Data.int 42) [] h).2.1,
    (store_get_round_trip { genuine := true } "k1" (Data.int 42) [] h).2.2.2 42 rfl⟩

/-! ### C4: effect order of a `Cache.store` call -/

/-- C4.  With a genuine handle, a `Cache.store` call issues exactly, and
in this order: the `RPUSH` of the repr of the arguments to the inputs
list, the `INCR` of the counter, the `SET` of the value under the fresh
key, and the `RPUSH` of the returned key to the outputs list — and the
resulting store state is the one obtained by applying those four commands
in that order. -/
theorem store_effect_order (self : CacheObj) (key : String) (d : Data) (db : RedisState)
    {c : Nat} {ins outs : List ByteStr}
    (hg : self.genuine = true)
    (hc : counterIs db qualStore c)
    (hin : listIs db (qualStore ++ ":inputs") ins)
    (hout : listIs db (qualStore ++ ":outputs") outs)
    (hko : key ≠ qualStore ++ ":outputs") :
    ((Cache.store key).run self [d] db).2.2 =
      [Cmd.rpush (qualStore ++ ":inputs") (reprArgs [d]), Cmd.incr qualStore,
        Cmd.set key (encodeData d), Cmd.rpush (qualStore ++ ":outputs") key] ∧
    ((Cache.store key).run self [d] db).2.1 =
      (rRpush (qualStore ++ ":outputs") key
        ((rSet key (encodeData d)
          ((rIncr qualStore
            ((rRpush (qualStore ++ ":inputs") (reprArgs [d]) db).2.1)).2.1)).2.1)).2.1 ∧
    ((Cache.store key).run self [d] db).1 = .ok key := by
  rw [store_run_ok self key d db hg hc hin hout hko]
  refine ⟨rfl, ?_, rfl⟩
  have h1 := rRpush_of_listIs hin (reprArgs [d])
  have hc1 : counterIs (db.setKey (qualStore ++ ":inputs")
      (.list (ins ++ [reprArgs [d]]))) qualStore c :=
    counterIs_setKey_ne hc _ (qual_ne_inputs qualStore)
  have h2 := rIncr_of_counterIs hc1
  have hout3 : listIs (((db.setKey (qualStore ++ ":inputs")
      (.list (ins ++ [reprArgs [d]]))).setKey
      qualStore (.str (intToStr ((c : Int) + 1)))).setKey key (.str (encodeData d)))
      (qualStore ++ ":outputs") outs :=
    listIs_setKey_ne (listIs_setKey_ne (listIs_setKey_ne hout _
      (Ne.symm (inputs_ne_outputs qualStore))) _ (Ne.symm (qual_ne_outputs qualStore))) _
      (Ne.symm hko)
  have h4 := rRpush_of_listIs hout3 key
  simp only [h1, h2, h4, rSet]

/-- Witness for C4: one store call on an empty store. -/
theorem store_effect_order_witness :
    (({ genuine := true } : CacheObj).genuine = true ∧
      counterIs [] qualStore 0 ∧ listIs [] (qualStore ++ ":inputs") [] ∧
      listIs [] (qualStore ++ ":outputs") [] ∧ "k1" ≠ qualStore ++ ":outputs") ∧
    (((Cache.store "k1").run { genuine := true } [Data.str "a"] []).2.2 =
      [Cmd.rpush (qualStore ++ ":inputs") (reprArgs [Data.str "a"]), Cmd.incr qualStore,
        Cmd.set "k1" (encodeData (Data.str "a")), Cmd.rpush (qualStore ++ ":outputs") "k1"] ∧
    ((Cache.store "k1").run { genuine := true } [Data.str "a"] []).2.1 =
      (rRpush (qualStore ++ ":outputs") "k1"
        ((rSet "k1" (encodeData (Data.str "a"))
          ((rIncr qualStore
            ((rRpush (qualStore ++ ":inputs") (reprArgs [Data.str "a"]) []).2.1)).2.1)).2.1)).2.1 ∧
    ((Cache.store "k1").run { genuine := true } [Data.str "a"] []).1 = .ok "k1") :=
  ⟨⟨rfl, Or.inr ⟨rfl, rfl⟩, Or.inr ⟨rfl, rfl⟩, Or.inr ⟨rfl, rfl⟩, by decide⟩,
    store_effect_order { genuine := true } "k1" (Data.str "a") []
      rfl (Or.inr ⟨rfl, rfl⟩) (Or.inr ⟨rfl, rfl⟩) (Or.inr ⟨rfl, rfl⟩) (by decide)⟩

/-! ### C2: counter and history stay aligned over a run of store calls -/

/-- Invariant carried through a sequence of `Cache.store` calls with fresh
keys: the counter advances by one per call, each call appends its repr to
the inputs list and its returned key to the outputs list, in order. -/
theorem storeSeq_invariant (self : CacheObj) (hg : self.genuine = true)
    (pairs : List (String × Data)) :
    ∀ (db : RedisState) (c : Nat) (ins outs : List ByteStr),
      (∀ p ∈ pairs, p.1 ≠ qualStore ∧ p.1 ≠ qualStore ++ ":inputs" ∧
        p.1 ≠ qualStore ++ ":outputs") →
      counterIs db qualStore c →
      listIs db (qualStore ++ ":inputs") ins →
      listIs db (qualStore ++ ":outputs") outs →
      ∃ db' t,
        storeSeq self pairs db = (.ok (pairs.map Prod.fst), db', t) ∧
        counterIs db' qualStore (c + pairs.length) ∧
        listIs db' (qualStore ++ ":inputs")
          (ins ++ pairs.map (fun p => reprArgs [p.2])) ∧
        listIs db' (qualStore ++ ":outputs") (outs ++ pairs.map Prod.fst) := by
  induction pairs with
  | nil =>
    intro db c ins outs _ hc hin hout
    exact ⟨db, [], by simp [storeSeq, R.pure], by simpa using hc,
      by simpa using hin, by simpa using hout⟩
  | cons p rest ih =>
    intro db c ins outs hk hc hin hout
    obtain ⟨key, d⟩ := p
    obtain ⟨hk1, hk2, hk3⟩ := hk (key, d) (List.mem_cons_self _ _)
    have hstep := store_run_ok self key d db hg hc hin hout hk3
    set db1 := (((db.setKey (qualStore ++ ":inputs")
        (.list (ins ++ [reprArgs [d]]))).setKey
        qualStore (.str (intToStr ((c : Int) + 1)))).setKey
        key (.str (encodeData d))).setKey
        (qualStore ++ ":outputs") (.list (outs ++ [key])) with hdb1
    have hcast : ((c : Int) + 1) = (((c + 1 : Nat)) : Int) := by push_cast; ring
    have hc1 : counterIs db1 qualStore (c + 1) := by
      refine Or.inl ?_
      rw [hdb1, RedisState.lookup_setKey_ne _ _ _ (qual_ne_outputs qualStore),
        RedisState.lookup_setKey_ne _ _ _ (Ne.symm hk1),
        RedisState.lookup_setKey_self, hcast]
    have hin1 : listIs db1 (qualStore ++ ":inputs") (ins ++ [reprArgs [d]]) := by
      refine Or.inl ?_
      rw [hdb1, RedisState.lookup_setKey_ne _ _ _ (inputs_ne_outputs qualStore),
        RedisState.lookup_setKey_ne _ _ _ (Ne.symm hk2),
        RedisState.lookup_setKey_ne _ _ _ (Ne.symm (qual_ne_inputs qualStore)),
        RedisState.lookup_setKey_self]
    have hout1 : listIs db1 (qualStore ++ ":outputs") (outs ++ [key]) :=
      Or.inl (by rw [hdb1, RedisState.lookup_setKey_self])
    obtain ⟨db', t, hrun, hc', hin', hout'⟩ :=
      ih db1 (c + 1) (ins ++ [reprArgs [d]]) (outs ++ [key])
        (fun q hq => hk q (List.mem_cons_of_mem _ hq)) hc1 hin1 hout1
    refine ⟨db', [Cmd.rpush (qualStore ++ ":inputs") (reprArgs [d]), Cmd.incr qualStore,
      Cmd.set key (encodeData d), Cmd.rpush (qualStore ++ ":outputs") key] ++ t,
      ?_, ?_, ?_, ?_⟩
    · simp only [storeSeq]
      rw [R.bind_ok _ db hstep]
      rw [R.bind_ok _ db1 hrun]
      simp [R.pure]
    · have heq : c + 1 + rest.length = c + (rest.length + 1) := by omega
      simpa [List.length_cons, ← heq] using hc'
    · simpa [List.append_assoc] using hin'
    · simpa [List.append_assoc] using hout'

/-- C2.  Starting from a freshly flushed store and calling `Cache.store`
once per pair (fresh keys avoiding the three bookkeeping keys, as the
random 128-bit identifiers do with overwhelming probability), every call
succeeds and returns its key; afterwards the counter under `Cache.store`
reads exactly the number of calls, the inputs and outputs lists both have
that length, and the i-th outputs entry is exactly the key returned by the
i-th call. -/
theorem counter_history_alignment (self : CacheObj) (db : RedisState)
    (pairs : List (String × Data))
    (hg : self.genuine = true)
    (hkeys : ∀ p ∈ pairs, p.1 ≠ qualStore ∧ p.1 ≠ qualStore ++ ":inputs" ∧
      p.1 ≠ qualStore ++ ":outputs") :
    (storeSeq self pairs ((rFlushdb db).2.1)).1 = .ok (pairs.map Prod.fst) ∧
    counterIs ((storeSeq self pairs ((rFlushdb db).2.1)).2.1) qualStore pairs.length ∧
    listIs ((storeSeq self pairs ((rFlushdb db).2.1)).2.1) (qualStore ++ ":inputs")
      (pairs.map (fun p => reprArgs [p.2])) ∧
    (pairs.map (fun p => reprArgs [p.2])).length = pairs.length ∧
    listIs ((storeSeq self pairs ((rFlushdb db).2.1)).2.1) (qualStore ++ ":outputs")
      (pairs.map Prod.fst) ∧
    (pairs.map Prod.fst).length = pairs.length := by
  have h0 : (rFlushdb db).2.1 = ([] : RedisState) := rfl
  rw [h0]
  obtain ⟨db', t, hrun, hc', hin', hout'⟩ :=
    storeSeq_invariant self hg pairs [] 0 [] [] hkeys
      (Or.inr ⟨rfl, rfl⟩) (Or.inr ⟨rfl, rfl⟩) (Or.inr ⟨rfl, rfl⟩)
  rw [hrun]
  exact ⟨rfl, by simpa using hc', by simpa using hin', by simp,
    by simpa using hout', by simp⟩

/-- Witness for C2: two store calls on a fresh store. -/
theorem counter_history_alignment_witness :
    (({ genuine := true } : CacheObj).genuine = true ∧
      (∀ p ∈ [("k1", Data.str "a"), ("k2", Data.int 5)],
        p.1 ≠ qualStore ∧ p.1 ≠ qualStore ++ ":inputs" ∧ p.1 ≠ qualStore ++ ":outputs")) ∧
    ((storeSeq { genuine := true } [("k1", Data.str "a"), ("k2", Data.int 5)]
        ((rFlushdb []).2.1)).1 =
      .ok ([("k1", Data.str "a"), ("k2", Data.int 5)].map Prod.fst) ∧
    counterIs ((storeSeq { genuine := true } [("k1", Data.str "a"), ("k2", Data.int 5)]
        ((rFlushdb []).2.1)).2.1) qualStore
      ([("k1", Data.str "a"), ("k2", Data.int 5)] : List (String × Data)).length ∧
    listIs ((storeSeq { genuine := true } [("k1", Data.str "a"), ("k2", Data.int 5)]
        ((rFlushdb []).2.1)).2.1) (qualStore ++ ":inputs")
      ([("k1", Data.str "a"), ("k2", Data.int 5)].map (fun p => reprArgs [p.2])) ∧
    ([("k1", Data.str "a"), ("k2", Data.int 5)].map
        (fun p => reprArgs [p.2])).length =
      ([("k1", Data.str "a"), ("k2", Data.int 5)] : List (String × Data)).length ∧
    listIs ((storeSeq { genuine := true } [("k1", Data.str "a"), ("k2", Data.int 5)]
        ((rFlushdb []).2.1)).2.1) (qualStore ++ ":outputs")
      ([("k1", Data.str "a"), ("k2", Data.int 5)].map Prod.fst) ∧
    ([("k1", Data.str "a"), ("k2", Data.int 5)].map Prod.fst).length =
      ([("k1", Data.str "a"), ("k2", Data.int 5)] : List (String × Data)).length) :=
  ⟨⟨rfl, by decide⟩,
    counter_history_alignment { genuine := true } [] _ rfl (by decide)⟩

/-! ### C3: a failing wrapped call breaks the history alignment -/

/-- C3.  If the operation wrapped by `call_history` raises (after the
inputs record was pushed), the exception propagates: no entry is pushed to
the outputs list and nothing is rolled back, so — provided the wrapped
operation itself leaves the two history keys alone, as `store`'s body does
— the inputs list ends up strictly longer than the outputs list whenever
the two were aligned before the call. -/
theorem call_history_failure_misaligns (m : PyMethod) (self : CacheObj)
    (args : List Data) (db db1 db2 : RedisState) (e : String) (n : Nat)
    (t1 t2 : List Cmd)
    (hg : self.genuine = true)
    (hpush : rRpush (m.qualname ++ ":inputs") (reprArgs args) db = (.ok n, db1, t1))
    (hfail : m.run self args db1 = (.error e, db2, t2))
    (hfr_in : db2.lookup (m.qualname ++ ":inputs") = db1.lookup (m.qualname ++ ":inputs"))
    (hfr_out : db2.lookup (m.qualname ++ ":outputs") = db1.lookup (m.qualname ++ ":outputs"))
    (halign : histLen db (m.qualname ++ ":inputs") = histLen db (m.qualname ++ ":outputs")) :
    ((call_history m).run self args db).1 = .error e ∧
    ((call_history m).run self args db).2.1 = db2 ∧
    histLen db2 (m.qualname ++ ":inputs") = histLen db (m.qualname ++ ":inputs") + 1 ∧
    db2.lookup (m.qualname ++ ":outputs") = db.lookup (m.qualname ++ ":outputs") ∧
    histLen db2 (m.qualname ++ ":inputs") > histLen db2 (m.qualname ++ ":outputs") := by
  have hA : R.bind (rRpush (m.qualname ++ ":inputs") (reprArgs args))
      (fun _ => R.pure ()) db = (.ok (), db1, t1) := by
    rw [R.bind_ok _ db hpush]
    simp [R.pure]
  have hrun : (call_history m).run self args db = (.error e, db2, t1 ++ t2) := by
    simp only [call_history, hg, if_true]
    rw [R.bind_ok _ db hA]
    rw [R.bind_error _ db1 hfail]
  -- identify db1 from the push
  rcases hl : db.lookup (m.qualname ++ ":inputs") with _ | ⟨b⟩ | ⟨l⟩ <;>
    simp only [rRpush, hl] at hpush
  case str => exact absurd hpush (by simp)
  case none =>
    obtain ⟨-, hdb1, -⟩ : 1 = n ∧
        db.setKey (m.qualname ++ ":inputs") (.list [reprArgs args]) = db1 ∧ _ = t1 := by
      simpa [Prod.ext_iff] using hpush
    have hlen2 : histLen db2 (m.qualname ++ ":inputs") = 1 := by
      rw [histLen, hfr_in, ← hdb1, RedisState.lookup_setKey_self]
      rfl
    have hout2 : db2.lookup (m.qualname ++ ":outputs") =
        db.lookup (m.qualname ++ ":outputs") := by
      rw [hfr_out, ← hdb1,
        RedisState.lookup_setKey_ne _ _ _ (Ne.symm (inputs_ne_outputs m.qualname))]
    have hlen0 : histLen db (m.qualname ++ ":inputs") = 0 := by
      rw [histLen, hl]
    refine ⟨by rw [hrun], by rw [hrun], by rw [hlen2, hlen0], hout2, ?_⟩
    have : histLen db2 (m.qualname ++ ":outputs") =
        histLen db (m.qualname ++ ":outputs") := by
      rw [histLen, hout2, histLen]
    omega
  case list =>
    obtain ⟨-, hdb1, -⟩ : l.length + 1 = n ∧
        db.setKey (m.qualname ++ ":inputs") (.list (l ++ [reprArgs args])) = db1 ∧ _ = t1 := by
      simpa [Prod.ext_iff] using hpush
    have hlen2 : histLen db2 (m.qualname ++ ":inputs") = l.length + 1 := by
      rw [histLen, hfr_in, ← hdb1, RedisState.lookup_setKey_self]
      simp
    have hout2 : db2.lookup (m.qualname ++ ":outputs") =
        db.lookup (m.qualname ++ ":outputs") := by
      rw [hfr_out, ← hdb1,
        RedisState.lookup_setKey_ne _ _ _ (Ne.symm (inputs_ne_outputs m.qualname))]
    have hlen0 : histLen db (m.qualname ++ ":inputs") = l.length := by
      rw [histLen, hl]
    refine ⟨by rw [hrun], by rw [hrun], by rw [hlen2, hlen0], hout2, ?_⟩
    have : histLen db2 (m.qualname ++ ":outputs") =
        histLen db (m.qualname ++ ":outputs") := by
      rw [histLen, hout2, histLen]
    omega

/-- Witness for C3: a wrapped operation that always raises, called once on
an empty store: the input record is kept, the outputs list stays empty. -/
theorem call_history_failure_misaligns_witness :
    (({ genuine := true } : CacheObj).genuine = true ∧
      rRpush (({ qualname := "Cache.store", run := fun _ _ => R.raise "boom" } :
          PyMethod).qualname ++ ":inputs") (reprArgs [Data.str "a"]) [] =
        (.ok 1, [("Cache.store" ++ ":inputs", RVal.list [reprArgs [Data.str "a"]])],
          [Cmd.rpush ("Cache.store" ++ ":inputs") (reprArgs [Data.str "a"])])) ∧
    ((call_history { qualname := "Cache.store", run := fun _ _ => R.raise "boom" }).run
        { genuine := true } [Data.str "a"] []).1 = .error "boom" ∧
    histLen
        (([("Cache.store" ++ ":inputs", RVal.list [reprArgs [Data.str "a"]])]) : RedisState)
        ("Cache.store" ++ ":inputs") >
      histLen
        (([("Cache.store" ++ ":inputs", RVal.list [reprArgs [Data.str "a"]])]) : RedisState)
        ("Cache.store" ++ ":outputs") := by
  have hpush : rRpush ("Cache.store" ++ ":inputs") (reprArgs [Data.str "a"]) [] =
      (.ok 1, [("Cache.store" ++ ":inputs", RVal.list [reprArgs [Data.str "a"]])],
        [Cmd.rpush ("Cache.store" ++ ":inputs") (reprArgs [Data.str "a"])]) := rfl
  have h := call_history_failure_misaligns
    { qualname := "Cache.store", run := fun _ _ => R.raise "boom" } { genuine := true }
    [Data.str "a"] [] [("Cache.store" ++ ":inputs", RVal.list [reprArgs [Data.str "a"]])]
    [("Cache.store" ++ ":inputs", RVal.list [reprArgs [Data.str "a"]])] "boom" 1
    [Cmd.rpush ("Cache.store" ++ ":inputs") (reprArgs [Data.str "a"])] []
    rfl hpush rfl rfl rfl rfl
  exact ⟨⟨rfl, hpush⟩, h.1, h.2.2.2.2⟩

/-! ### C6: the replay report -/

/-- The counter at `q` reads as the integer `c` the way `replay` reads it:
absent means zero, otherwise the stored byte string parses as `c`. -/
def counterReads (db : RedisState) (q : String) (c : Int) : Prop :=
  (db.lookup q = none ∧ c = 0) ∨
  (∃ b, db.lookup q = some (.str b) ∧ parseInt b = some c)

theorem rLrange_of_getListItems {db : RedisState} {k : String} {l : List ByteStr}
    (h : getListItems db k = some l) :
    rLrange k 0 (-1) db = (.ok l, db, [Cmd.lrange k 0 (-1)]) := by
  unfold getListItems at h
  rcases hl : db.lookup k with _ | ⟨b⟩ | ⟨ll⟩ <;> rw [hl] at h <;> simp only [] at h
  · simp only [Option.some.injEq] at h
    subst h
    simp [rLrange, hl]
  · exact absurd h (by simp)
  · simp only [Option.some.injEq] at h
    subst h
    simp [rLrange, hl, lrangeSlice_all]

/-- C6.  When its preconditions hold, `replay` prints the header
`"<qualname> was called <count> times:"` — the count read from the counter
key, zero when that key is absent — and then one line per index, pairing
inputs with outputs up to the shorter list, in call order, each line being
`"<qualname>(*<decoded-input>) -> <output-repr>"`. -/
theorem replay_report (m : BoundMethod) (self : CacheObj) (db : RedisState)
    (c : Int) (ins outs : List ByteStr)
    (howner : m.owner = some self) (hg : self.genuine = true)
    (hcount : counterReads db m.qualname c)
    (hin : getListItems db (m.qualname ++ ":inputs") = some ins)
    (hout : getListItems db (m.qualname ++ ":outputs") = some outs) :
    (replay (some m) db).1 = .ok (
      (m.qualname ++ " was called " ++ intToStr c ++ " times:") ::
      (ins.zip outs).map (fun p =>
        m.qualname ++ "(*" ++ p.1 ++ ") -> " ++ bytesRepr p.2)) := by
  simp only [replay, howner, hg, if_true]
  rcases hcount with ⟨hl, hc0⟩ | ⟨b, hl, hp⟩
  · subst hc0
    have hex : rExistsKey m.qualname db = (.ok 0, db, [Cmd.existsKey m.qualname]) := by
      simp [rExistsKey, hl]
    rw [R.bind_ok _ db hex]
    rw [if_neg (by norm_num)]
    rw [R.bind_ok _ db (R.pure_eq 0 db)]
    rw [R.bind_ok _ db (rLrange_of_getListItems hin)]
    rw [R.bind_ok _ db (rLrange_of_getListItems hout)]
    rfl
  · have hex : rExistsKey m.qualname db = (.ok 1, db, [Cmd.existsKey m.qualname]) := by
      simp [rExistsKey, hl]
    rw [R.bind_ok _ db hex]
    rw [if_pos (by norm_num)]
    have hget : rGet m.qualname db = (.ok (some b), db, [Cmd.get m.qualname]) := by
      simp [rGet, hl]
    have hcnt : R.bind (rGet m.qualname) (fun v =>
        match v with
        | some b =>
          match parseInt b with
          | some n => R.pure n
          | none => R.raise "ValueError"
        | none => R.raise "TypeError") db = (.ok c, db, [Cmd.get m.qualname]) := by
      rw [R.bind_ok _ db hget]
      simp [hp, R.pure]
    rw [R.bind_ok _ db hcnt]
    rw [R.bind_ok _ db (rLrange_of_getListItems hin)]
    rw [R.bind_ok _ db (rLrange_of_getListItems hout)]
    rfl

/-- Witness for C6: a counter reading 2 and histories of different
lengths; the report pairs only the shorter length. -/
theorem replay_report_witness :
    (({ qualname := "Cache.store", owner := some { genuine := true } } :
        BoundMethod).owner = some { genuine := true } ∧
      counterReads
        [("Cache.store", RVal.str "2"),
          ("Cache.store" ++ ":inputs", RVal.list ["i1", "i2"]),
          ("Cache.store" ++ ":outputs", RVal.list ["o1"])] "Cache.store" 2 ∧
      getListItems
        [("Cache.store", RVal.str "2"),
          ("Cache.store" ++ ":inputs", RVal.list ["i1", "i2"]),
          ("Cache.store" ++ ":outputs", RVal.list ["o1"])]
        ("Cache.store" ++ ":inputs") = some ["i1", "i2"] ∧
      getListItems
        [("Cache.store", RVal.str "2"),
          ("Cache.store" ++ ":inputs", RVal.list ["i1", "i2"]),
          ("Cache.store" ++ ":outputs", RVal.list ["o1"])]
        ("Cache.store" ++ ":outputs") = some ["o1"]) ∧
    (replay (some { qualname := "Cache.store", owner := some { genuine := true } })
        [("Cache.store", RVal.str "2"),
          ("Cache.store" ++ ":inputs", RVal.list ["i1", "i2"]),
          ("Cache.store" ++ ":outputs", RVal.list ["o1"])]).1 = .ok (
      ("Cache.store" ++ " was called " ++ intToStr 2 ++ " times:") ::
      ((["i1", "i2"] : List ByteStr).zip (["o1"] : List ByteStr)).map (fun p =>
        "Cache.store" ++ "(*" ++ p.1 ++ ") -> " ++ bytesRepr p.2)) := by
  have hcount : counterReads
      [("Cache.store", RVal.str "2"),
        ("Cache.store" ++ ":inputs", RVal.list ["i1", "i2"]),
        ("Cache.store" ++ ":outputs", RVal.list ["o1"])] "Cache.store" 2 :=
    Or.inr ⟨"2", rfl, by decide⟩
  exact ⟨⟨rfl, hcount, rfl, rfl⟩,
    replay_report { qualname := "Cache.store", owner := some { genuine := true } }
      { genuine := true } _ 2 ["i1", "i2"] ["o1"] rfl rfl hcount rfl rfl⟩
